import Mathlib

/-!
Shallow embedding of the cascading-filter / dynamic-aggregation engine of
`effort_analysis_viewer.py` (Streamlit effort-analysis viewer).

Modelling conventions:
* A pandas cell is a `Cell`: a string, a rational number (floats are modelled
  exactly by `ℚ`), or `Cell.blank` standing for a missing value (`NaN`).
* A dataframe row is an association list from column names to cells; a value
  absent from the list reads as `Cell.blank`.
* A `Table` is the ordered column-name list together with the row list;
  row-filtering never changes the column list, mirroring pandas.
* `pandas.Series.unique` / `groupby` key enumeration is modelled with
  `List.dedup` (the same value set; pandas orders keys differently, which no
  claim below depends on).
* `pandas.DataFrame.sort_values(kind='quicksort')` promises a permutation
  ordered under the comparison key but no tie order; it is modelled
  relationally by `IsSortOutput`.
-/

/-- Cell value of the modelled dataframe: a string, an exact numeric, or a
missing value (`NaN`). -/
inductive Cell where
  | str (s : String)
  | num (q : ℚ)
  | blank
deriving DecidableEq

/-- Sentinel label `"[空白]"` used by the viewer for missing values
(`BLANK_STR` in the source). -/
def BLANK_STR : String := "[空白]"

/-- Fixed priority list of category columns (`BASE_COLUMN_ORDER` in the
source). -/
def BASE_COLUMN_ORDER : List String :=
  ["USER_FIELD_01", "USER_FIELD_02", "USER_FIELD_03",
   "業務内容1", "業務内容2", "業務内容3", "業務内容4", "業務内容5"]

/-- The designated unit column name (`UNIT_COL` in the source). -/
def UNIT_COL : String := "UNIT"

/-- The designated measure column name (`EFFORT_COL` in the source). -/
def EFFORT_COL : String := "作業時間(h)"

/-- Row of the modelled dataframe: an association list from column names to
cells. -/
abbrev Row := List (String × Cell)

/-- Value of a row at a column; a column missing from the association list
reads as a missing value. -/
def Row.get (r : Row) (c : String) : Cell :=
  match r.lookup c with
  | some v => v
  | none => Cell.blank

/-- A table: ordered column names plus ordered rows. -/
structure Table where
  cols : List String
  rows : List Row
deriving DecidableEq

/-- The `fillna(BLANK_STR)` substitution on one cell: a missing value becomes
the sentinel string, everything else is unchanged. -/
def fillBlank (c : Cell) : Cell :=
  match c with
  | Cell.blank => Cell.str BLANK_STR
  | v => v

/-- String rendering of a cell, modelling Python `str` (used by the sort key
and the option-list sort). -/
def cellStr : Cell → String
  | Cell.str s => s
  | Cell.num q => toString q
  | Cell.blank => "nan"

/-- Lexicographic code-point comparison of character lists, modelling
Python's string ordering. -/
def charListLe : List Char → List Char → Bool
  | [], _ => true
  | _ :: _, [] => false
  | a :: as, b :: bs =>
      if a.val < b.val then true
      else if b.val < a.val then false
      else charListLe as bs

/-- Python's `<=` on strings: lexicographic by Unicode code point. -/
def strLe (a b : String) : Bool := charListLe a.data b.data

/-- Option list for a column: the `fillna(BLANK_STR)`-ed distinct values of
the column, stably sorted by string representation
(lines 208-212 / 240-244 of the source; a stable sort under a total preorder
has a unique output, so `List.insertionSort` reproduces Python `list.sort`
exactly). -/
def optionsWithBlank (rows : List Row) (col : String) : List Cell :=
  List.insertionSort (fun a b => strLe (cellStr a) (cellStr b) = true)
    ((rows.map (fun r => fillBlank (Row.get r col))).dedup)

/-- Reverse substitution applied to one chosen filter value
(`np.nan if v == BLANK_STR else v`, line 226): the sentinel string becomes a
missing value. -/
def toActual (v : Cell) : Cell :=
  if v = Cell.str BLANK_STR then Cell.blank else v

/-- Concrete (non-sentinel) chosen values of a selection (`non_nan_values`,
line 228). -/
def concreteValues (sel : List Cell) : List Cell :=
  (sel.map toActual).filter (fun v => v ≠ Cell.blank)

/-- Whether the blank sentinel is among the chosen values (`is_nan_selected`,
line 227). -/
def blankSelected (sel : List Cell) : Bool :=
  (sel.map toActual).contains Cell.blank

/-- Row-level filter test for one column with a non-empty selection
(lines 230-234): keep the row when its value is among the concrete chosen
values, or when the blank sentinel was chosen and the value is missing
(a null test, `isna`). -/
def rowKeep (col : String) (sel : List Cell) (r : Row) : Bool :=
  if blankSelected sel then
    (concreteValues sel).contains (Row.get r col) || (Row.get r col == Cell.blank)
  else
    (concreteValues sel).contains (Row.get r col)

/-- State threaded through the sidebar cascade: current table, the
applied-filters record, and the option lists offered so far. -/
structure CascadeState where
  table : Table
  applied : List String
  shownOptions : List (String × List Cell)
deriving DecidableEq

/-- One iteration of the category cascade loop (lines 204-234): skip the
column when absent or when its option list is empty; otherwise offer the
options enumerated from the current (already filtered) table and, when the
selection is non-empty, record the filter and narrow the rows. -/
def cascadeStep (sels : String → List Cell) (acc : CascadeState) (col : String) :
    CascadeState :=
  if col ∈ acc.table.cols then
    let o := optionsWithBlank acc.table.rows col
    if o = [] then acc
    else
      let sel := sels col
      if sel = [] then
        { acc with shownOptions := acc.shownOptions ++ [(col, o)] }
      else
        { table := { acc.table with rows := acc.table.rows.filter (rowKeep col sel) },
          applied := acc.applied ++ [col],
          shownOptions := acc.shownOptions ++ [(col, o)] }
  else acc

/-- Ordered list of category columns available in the loaded table
(`available_base_columns`, line 197). -/
def availableBaseColumns (t : Table) : List String :=
  BASE_COLUMN_ORDER.filter (fun c => t.cols.contains c)

/-- Full category cascade over the available category columns in priority
order. -/
def cascade (t : Table) (sels : String → List Cell) : CascadeState :=
  (availableBaseColumns t).foldl (cascadeStep sels) ⟨t, [], []⟩

/-- Option list of the unit filter (line 240): enumerated from the original
source table, not from the cascaded table. -/
def sidebarUnitOptions (t : Table) : List Cell :=
  if t.cols.contains UNIT_COL then optionsWithBlank t.rows UNIT_COL else []

/-- The unit filter, applied last (lines 246-262): AND-combined with the
category filters when the unit column exists and the selection is non-empty. -/
def applyUnitFilter (source : Table) (filtered : Table) (unitSel : List Cell) :
    Table :=
  if source.cols.contains UNIT_COL ∧ unitSel ≠ [] ∧
      filtered.cols.contains UNIT_COL then
    { filtered with rows := filtered.rows.filter (rowKeep UNIT_COL unitSel) }
  else filtered

/-- The fully filtered table of one recomputation pass: category cascade then
unit filter. -/
def filteredTable (t : Table) (sels : String → List Cell) (unitSel : List Cell) :
    Table :=
  applyUnitFilter t (cascade t sels).table unitSel

/-- Group-key derivation before the unit-column append (lines 280-297): with
no applied filters the key is every available category column present in the
table; otherwise the key is every available category column strictly after
the last (highest-priority-index) applied one. -/
def deriveBaseGroupCols (available applied tcols : List String) : List String :=
  if applied = [] then available.filter (fun c => tcols.contains c)
  else
    match available.reverse.find? (fun c => applied.contains c) with
    | none => []
    | some c =>
        (available.drop (available.indexOf c + 1)).filter
          (fun c2 => tcols.contains c2)

/-- Full group-key derivation (lines 280-301): the base key plus the unit
column appended at the end when it exists in the source and the table and is
not already in the key. -/
def deriveGroupCols (available applied tcols : List String)
    (unitInSource : Bool) : List String :=
  let g := deriveBaseGroupCols available applied tcols
  if unitInSource ∧ ¬ g.contains UNIT_COL ∧ tcols.contains UNIT_COL then
    g ++ [UNIT_COL]
  else g

/-- Group key of one row: its tuple of values at the key columns. -/
def keyOf (cols : List String) (r : Row) : List Cell :=
  cols.map (fun c => Row.get r c)

/-- Measure value of one row: the numeric value of the effort column, with a
missing (or non-numeric) value contributing 0, modelling pandas `sum`
skipping `NaN`. -/
def effortOf (r : Row) : ℚ :=
  match Row.get r EFFORT_COL with
  | Cell.num q => q
  | _ => 0

/-- Sum of the measure over the rows of one group. -/
def groupSum (rows : List Row) (cols : List String) (k : List Cell) : ℚ :=
  ((rows.filter (fun r => keyOf cols r == k)).map effortOf).sum

/-- The aggregator (line 309): group the rows by their key tuples with
missing keys kept (`dropna=False`), and sum the measure per group. -/
def aggregate (rows : List Row) (cols : List String) : List (List Cell × ℚ) :=
  ((rows.map (keyOf cols)).dedup).map (fun k => (k, groupSum rows cols k))

/-- Display columns of the ungrouped fallback listing (lines 448-452):
available category columns, then the unit column, then the measure column,
each when present. -/
def fallbackDisplayCols (available tcols : List String) (unitInSource : Bool) :
    List String :=
  let base := available.filter (fun c => tcols.contains c)
  let base2 :=
    if unitInSource ∧ tcols.contains UNIT_COL then base ++ [UNIT_COL] else base
  if tcols.contains EFFORT_COL then base2 ++ [EFFORT_COL] else base2

/-- Outcome of the aggregation stage of one pass. -/
inductive AnalysisResult where
  | missingEffort
  | grouped (result : List (List Cell × ℚ))
  | ungroupedTotal (total : ℚ) (displayCols : List String)
      (listing : List (List Cell))
  | noData
deriving DecidableEq

/-- Whether an outcome is the ungrouped total-plus-listing report. -/
def AnalysisResult.reportsTotal : AnalysisResult → Bool
  | AnalysisResult.ungroupedTotal _ _ _ => true
  | _ => false

/-- The aggregation stage (lines 280-315 and 441-456): derive the group key;
halt with a fatal error when the measure column is absent; aggregate when the
key is non-empty; otherwise report the total and the flat restricted listing
when rows remain, or a no-data notice. -/
def analyzePass (tcols available applied : List String) (unitInSource : Bool)
    (rows : List Row) : AnalysisResult :=
  let g := deriveGroupCols available applied tcols unitInSource
  if ¬ tcols.contains EFFORT_COL then AnalysisResult.missingEffort
  else if g ≠ [] then AnalysisResult.grouped (aggregate rows g)
  else if rows ≠ [] ∧ tcols.contains EFFORT_COL then
    AnalysisResult.ungroupedTotal ((rows.map effortOf).sum)
      (fallbackDisplayCols available tcols unitInSource)
      (rows.map (keyOf (fallbackDisplayCols available tcols unitInSource)))
  else AnalysisResult.noData

/-- One full recomputation pass from the source table and the user's
selections to the aggregation outcome. -/
def runAnalysis (t : Table) (sels : String → List Cell) (unitSel : List Cell) :
    AnalysisResult :=
  let ft := filteredTable t sels unitSel
  analyzePass t.cols (availableBaseColumns t) (cascade t sels).applied
    (t.cols.contains UNIT_COL) ft.rows

/-- Object-dtype test for a sort column: in the model a column is
object-typed exactly when it contains a string cell. -/
def isObjectDtype (cells : List Cell) : Bool :=
  cells.any (fun c => match c with | Cell.str _ => true | _ => false)

/-- The sort key transform of line 338
(`col.astype(str) if col.dtype == 'object' else col`). -/
def sortKeyCell (isObj : Bool) (c : Cell) : Cell :=
  if isObj then Cell.str (cellStr c) else c

/-- Comparison of two (post-key-transform) cells: strings by string order,
numerics by numeric order; heterogeneous or missing pairs do not occur on the
columns actually sorted and are compared as `true`. -/
def cellLe (a b : Cell) : Bool :=
  match a, b with
  | Cell.str s, Cell.str t => strLe s t
  | Cell.num p, Cell.num q => decide (p ≤ q)
  | _, _ => true

/-- Row comparison used by the sort (lines 334-339): compare the sort-column
values after the key transform, reversed when descending. -/
def rowSortLe (isObj : Bool) (asc : Bool) (col : String) (a b : Row) : Bool :=
  let x := sortKeyCell isObj (Row.get a col)
  let y := sortKeyCell isObj (Row.get b col)
  if asc then cellLe x y else cellLe y x

/-- Relational model of `sort_values` with the default (non-stable)
`quicksort` kind: any permutation of the input ordered under the row
comparison is a possible output. -/
def IsSortOutput (rows : List Row) (col : String) (asc : Bool)
    (out : List Row) : Prop :=
  out.Perm rows ∧
    out.Pairwise (fun a b =>
      rowSortLe (isObjectDtype (rows.map (fun r => Row.get r col))) asc col a b
        = true)

/-- The stable reference order: a stable sort under the same row comparison,
keeping tied rows in input order. -/
def stableSortRows (rows : List Row) (col : String) (asc : Bool) : List Row :=
  List.insertionSort (fun a b =>
    rowSortLe (isObjectDtype (rows.map (fun r => Row.get r col))) asc col a b
      = true) rows

/-- Chart title fragment (lines 383-385): `"上位"` (top) when sorting by the
measure descending, `"下位"` (bottom) when sorting by the measure ascending,
and the generic `"ソート順"` (by current sort) when sorting by any other
column. -/
def chartSortDirection (sortColumn : String) (sortAscending : Bool) : String :=
  let d := if !sortAscending then "上位" else "下位"
  if sortColumn ≠ EFFORT_COL then "ソート順" else d

/-- Row comparison as worded by the specification: non-numeric (object)
sort columns compare by string representation, numeric columns compare the
numeric values themselves, each direction-reversed when descending. -/
def claimSortLe (obj : Bool) (asc : Bool) (col : String) (a b : Row) : Prop :=
  if obj then
    (if asc then strLe (cellStr (Row.get a col)) (cellStr (Row.get b col)) = true
     else strLe (cellStr (Row.get b col)) (cellStr (Row.get a col)) = true)
  else
    ∃ p q, Row.get a col = Cell.num p ∧ Row.get b col = Cell.num q ∧
      (if asc then p ≤ q else q ≤ p)

/-- Concrete table for the C10 narrowing demonstration: two rows over two
category columns, a unit column and the measure column. -/
def c10table : Table :=
  { cols := ["USER_FIELD_01", "USER_FIELD_02", UNIT_COL, EFFORT_COL],
    rows := [[("USER_FIELD_01", Cell.str "X"), ("USER_FIELD_02", Cell.str "p"),
              (UNIT_COL, Cell.str "h"), (EFFORT_COL, Cell.num 1)],
             [("USER_FIELD_01", Cell.str "Y"), ("USER_FIELD_02", Cell.str "q"),
              (UNIT_COL, Cell.str "m"), (EFFORT_COL, Cell.num 2)]] }

/-- Concrete selections for the C10 demonstration: keep only
`USER_FIELD_01 = X`. -/
def c10sels : String → List Cell :=
  fun c => if c = "USER_FIELD_01" then [Cell.str "X"] else []

/-- First row of the C8 tie example: sort key `1`, payload `1`. -/
def c8rowA : Row := [("k", Cell.num 1), ("v", Cell.num 1)]

/-- Second row of the C8 tie example: sort key `1`, payload `2`. -/
def c8rowB : Row := [("k", Cell.num 1), ("v", Cell.num 2)]

/-! ### Helper lemmas -/

/-- Reverse substitution of a chosen value is missing exactly when the value
was the sentinel string or was itself missing. -/
lemma toActual_eq_blank_iff (v : Cell) :
    toActual v = Cell.blank ↔ (v = Cell.str BLANK_STR ∨ v = Cell.blank) := by
  unfold toActual
  by_cases h : v = Cell.str BLANK_STR <;> simp [h]

/-- Reverse substitution never produces the sentinel string. -/
lemma toActual_ne_sentinel (v : Cell) : toActual v ≠ Cell.str BLANK_STR := by
  unfold toActual
  by_cases h : v = Cell.str BLANK_STR <;> simp [h]

/-- For a selection without a literally-missing entry, the blank-selected
flag holds exactly when the sentinel string was chosen. -/
lemma blankSelected_iff {sel : List Cell} (hnb : Cell.blank ∉ sel) :
    blankSelected sel = true ↔ Cell.str BLANK_STR ∈ sel := by
  simp only [blankSelected]
  constructor
  · intro h
    have : Cell.blank ∈ sel.map toActual := by simpa using h
    obtain ⟨v, hv, hva⟩ := List.mem_map.mp this
    rcases (toActual_eq_blank_iff v).mp hva with h1 | h1
    · exact h1 ▸ hv
    · exact absurd (h1 ▸ hv) hnb
  · intro h
    have : Cell.blank ∈ sel.map toActual :=
      List.mem_map.mpr ⟨Cell.str BLANK_STR, h, (toActual_eq_blank_iff _).mpr (Or.inl rfl)⟩
    simpa using this

/-- The sentinel string never appears among the concrete chosen values. -/
lemma sentinel_not_mem_concreteValues (sel : List Cell) :
    Cell.str BLANK_STR ∉ concreteValues sel := by
  intro hmem
  simp only [concreteValues, List.mem_filter, List.mem_map] at hmem
  obtain ⟨⟨v, _, hva⟩, -⟩ := hmem
  exact toActual_ne_sentinel v hva

/-! ### Claim theorems: filter semantics, key derivation, error handling -/

/-- C3: for a non-empty chosen-value set (with no literally-missing entry,
as option lists are `fillna`-ed), a row is kept exactly when its value is
among the concrete (non-sentinel) chosen values, or the blank sentinel was
chosen and the value is missing; a value literally equal to the sentinel
string is never matched through the sentinel (null test, not string
equality). -/
theorem c3_blank_filter_semantics (r : Row) (col : String) (sel : List Cell)
    (hne : sel ≠ []) (hnb : Cell.blank ∉ sel) :
    (rowKeep col sel r = true ↔
      (Row.get r col ∈ concreteValues sel ∨
        (Cell.str BLANK_STR ∈ sel ∧ Row.get r col = Cell.blank))) ∧
    (Row.get r col = Cell.str BLANK_STR → rowKeep col sel r = false) := by
  constructor
  · cases hbool : blankSelected sel with
    | true =>
        have hsent : Cell.str BLANK_STR ∈ sel := (blankSelected_iff hnb).mp hbool
        simp [rowKeep, hbool, hsent]
    | false =>
        have hsent : Cell.str BLANK_STR ∉ sel := fun h => by
          rw [(blankSelected_iff hnb).mpr h] at hbool
          exact Bool.noConfusion hbool
        simp [rowKeep, hbool, hsent]
  · intro hx
    have hcv := sentinel_not_mem_concreteValues sel
    cases hbool : blankSelected sel <;> simp [rowKeep, hbool, hx, hcv]

/-- Witness for C3: a row with a missing value is kept when the sentinel is
chosen, while a row whose value is the literal sentinel string is not. -/
theorem c3_witness :
    rowKeep "USER_FIELD_01" [Cell.str BLANK_STR]
        [("USER_FIELD_01", Cell.blank)] = true ∧
    rowKeep "USER_FIELD_01" [Cell.str BLANK_STR]
        [("USER_FIELD_01", Cell.str BLANK_STR)] = false := by
  constructor
  · exact (c3_blank_filter_semantics [("USER_FIELD_01", Cell.blank)]
      "USER_FIELD_01" [Cell.str BLANK_STR] (by decide) (by decide)).1.mpr
      (Or.inr ⟨by decide, by decide⟩)
  · exact (c3_blank_filter_semantics [("USER_FIELD_01", Cell.str BLANK_STR)]
      "USER_FIELD_01" [Cell.str BLANK_STR] (by decide) (by decide)).2 (by decide)

/-- C2: with no applied category filter the derived key is the full ordered
available category-column list, and in every case the unit column, when it
exists in the table and is not already in the key, is appended at the end. -/
theorem c2_unfiltered_key_and_unit_append
    (available applied tcols : List String)
    (hsub : ∀ a ∈ available, a ∈ tcols) :
    (applied = [] → deriveBaseGroupCols available applied tcols = available) ∧
    (UNIT_COL ∈ tcols →
      UNIT_COL ∉ deriveBaseGroupCols available applied tcols →
      deriveGroupCols available applied tcols true =
        deriveBaseGroupCols available applied tcols ++ [UNIT_COL]) := by
  constructor
  · intro h
    subst h
    simp only [deriveBaseGroupCols, if_pos rfl]
    exact List.filter_eq_self.mpr (fun a ha => by simpa using hsub a ha)
  · intro hu hnot
    simp [deriveGroupCols, hu, hnot]

/-- Witness for C2: one available category column, no applied filters, and a
unit column present in the table. -/
theorem c2_witness :
    deriveBaseGroupCols ["USER_FIELD_01"] [] ["USER_FIELD_01", UNIT_COL] =
      ["USER_FIELD_01"] ∧
    deriveGroupCols ["USER_FIELD_01"] [] ["USER_FIELD_01", UNIT_COL] true =
      ["USER_FIELD_01", UNIT_COL] := by
  have h := c2_unfiltered_key_and_unit_append ["USER_FIELD_01"] []
    ["USER_FIELD_01", UNIT_COL] (by decide)
  refine ⟨h.1 rfl, ?_⟩
  rw [h.2 (by decide) (by decide), h.1 rfl]
  rfl

/-- C7: a missing measure column makes the pass halt with the fatal
configuration error, while an empty filtered result set with a non-empty
group key is not an error and aggregates to zero result rows. -/
theorem c7_missing_measure_fatal_empty_ok
    (tcols available applied : List String) (u : Bool) (rows : List Row) :
    (EFFORT_COL ∉ tcols →
      analyzePass tcols available applied u rows = AnalysisResult.missingEffort) ∧
    (EFFORT_COL ∈ tcols →
      deriveGroupCols available applied tcols u ≠ [] →
      analyzePass tcols available applied u [] = AnalysisResult.grouped []) := by
  constructor
  · intro h
    simp [analyzePass, h]
  · intro h hg
    simp [analyzePass, h, hg, aggregate]

/-- Witness for C7: a table without the measure column errors; a table with
the measure and unit columns but zero filtered rows aggregates to zero
rows. -/
theorem c7_witness :
    analyzePass ["X"] [] [] false [] = AnalysisResult.missingEffort ∧
    analyzePass [UNIT_COL, EFFORT_COL] [] [] true [] =
      AnalysisResult.grouped [] :=
  ⟨(c7_missing_measure_fatal_empty_ok ["X"] [] [] false []).1 (by decide),
   (c7_missing_measure_fatal_empty_ok [UNIT_COL, EFFORT_COL] [] [] true []).2
     (by decide) (by decide)⟩

/-- C5 (amended): when the derived group key is empty, the measure column is
present and the filtered row set is non-empty, aggregation is skipped and the
pass reports the total measure sum together with the flat listing of the
filtered rows restricted to the available category/unit/measure columns. -/
theorem c5_empty_key_reports_total_and_listing
    (tcols available applied : List String) (u : Bool) (rows : List Row)
    (hg : deriveGroupCols available applied tcols u = [])
    (heff : EFFORT_COL ∈ tcols) (hrows : rows ≠ []) :
    analyzePass tcols available applied u rows =
      AnalysisResult.ungroupedTotal ((rows.map effortOf).sum)
        (fallbackDisplayCols available tcols u)
        (rows.map (keyOf (fallbackDisplayCols available tcols u))) := by
  simp [analyzePass, hg, heff, hrows]

/-- Counterexample for C5 as stated: a loadable table holding only the
measure column and zero rows has an empty derived group key, yet the pass
reports the no-data notice, not the total-plus-listing report. -/
theorem c5_counterexample_empty_table :
    deriveGroupCols (availableBaseColumns ⟨[EFFORT_COL], []⟩) []
        [EFFORT_COL] false = [] ∧
    runAnalysis ⟨[EFFORT_COL], []⟩ (fun _ => []) [] = AnalysisResult.noData ∧
    (runAnalysis ⟨[EFFORT_COL], []⟩ (fun _ => []) []).reportsTotal = false := by
  refine ⟨by decide, by decide, by decide⟩

/-- Witness for C5: one row with only the measure column, no category
columns, no unit column. -/
theorem c5_witness :
    analyzePass [EFFORT_COL] [] [] false [[(EFFORT_COL, Cell.num 1)]] =
      AnalysisResult.ungroupedTotal 1 [EFFORT_COL] [[Cell.num 1]] := by
  have h := c5_empty_key_reports_total_and_listing [EFFORT_COL] [] [] false
    [[(EFFORT_COL, Cell.num 1)]] (by decide) (by decide) (by decide)
  rw [h]
  simp [effortOf, Row.get, keyOf, fallbackDisplayCols]

/-- C9: the chart title fragment is `"上位"` (top) exactly when sorting by
the measure column descending, `"下位"` (bottom) exactly when sorting by the
measure column ascending, and `"ソート順"` (by current sort) whenever the
sort column is not the measure column. -/
theorem c9_chart_title_direction (sc : String) (asc : Bool) :
    (chartSortDirection sc asc = "上位" ↔ (sc = EFFORT_COL ∧ asc = false)) ∧
    (chartSortDirection sc asc = "下位" ↔ (sc = EFFORT_COL ∧ asc = true)) ∧
    (sc ≠ EFFORT_COL → chartSortDirection sc asc = "ソート順") := by
  by_cases h : sc = EFFORT_COL <;> cases asc <;>
    simp [chartSortDirection, h]

/-- Witness for C9: sorting by the measure column descending yields the
"top" fragment. -/
theorem c9_witness : chartSortDirection EFFORT_COL false = "上位" :=
  (c9_chart_title_direction EFFORT_COL false).1.mpr ⟨rfl, rfl⟩

/-! ### Claim C1: key truncation after the last applied filter -/

/-- Search skips a prefix on which the predicate fails everywhere. -/
lemma find?_append_of_all_neg {α : Type} (p : α → Bool) {l1 : List α}
    (l2 : List α) (h : ∀ x ∈ l1, p x = false) :
    (l1 ++ l2).find? p = l2.find? p := by
  induction l1 with
  | nil => rfl
  | cons a l ih =>
      rw [List.cons_append, List.find?_cons_of_neg _ (by simp [h a (by simp)])]
      exact ih (fun x hx => h x (by simp [hx]))

/-- C1: with at least one applied category filter, the base group key (before
the unit append) is exactly the suffix of the available columns strictly
after the last applied one: decomposing the available list as
`xs ++ c :: ys` where `c` is applied and nothing in `ys` is, the key is
`ys`. -/
theorem c1_key_is_suffix_after_last_applied
    (xs ys applied tcols : List String) (c : String)
    (hcx : c ∉ xs) (hc : c ∈ applied)
    (hys : ∀ y ∈ ys, y ∉ applied)
    (hsub : ∀ a ∈ ys, a ∈ tcols) :
    deriveBaseGroupCols (xs ++ c :: ys) applied tcols = ys := by
  have hne : applied ≠ [] := List.ne_nil_of_mem hc
  unfold deriveBaseGroupCols
  rw [if_neg hne]
  have hfind : ((xs ++ c :: ys).reverse).find? (fun x => applied.contains x)
      = some c := by
    rw [show (xs ++ c :: ys).reverse = ys.reverse ++ c :: xs.reverse by simp]
    rw [find?_append_of_all_neg _ _
      (fun y hy => by simpa using hys y (by simpa using hy))]
    exact List.find?_cons_of_pos _ (by simpa using hc)
  rw [hfind]
  have hidx : (xs ++ c :: ys).indexOf c = xs.length := by
    rw [List.indexOf_append_of_not_mem hcx, List.indexOf_cons_self]
    omega
  show ((xs ++ c :: ys).drop ((xs ++ c :: ys).indexOf c + 1)).filter
      (fun c2 => tcols.contains c2) = ys
  rw [hidx]
  have hdrop : (xs ++ c :: ys).drop (xs.length + 1) = ys := by
    rw [show xs ++ c :: ys = (xs ++ [c]) ++ ys by simp]
    rw [show xs.length + 1 = (xs ++ [c]).length by simp]
    exact List.drop_left _ _
  rw [hdrop]
  exact List.filter_eq_self.mpr (fun a ha => by simpa using hsub a ha)

/-- Witness for C1: available columns `[A, B, C, D]` with filters applied on
`A` and `C` give the key `[D]`, not `[B, D]`. -/
theorem c1_witness :
    deriveBaseGroupCols
      ["USER_FIELD_01", "USER_FIELD_02", "USER_FIELD_03", "業務内容1"]
      ["USER_FIELD_01", "USER_FIELD_03"]
      ["USER_FIELD_01", "USER_FIELD_02", "USER_FIELD_03", "業務内容1"] =
      ["業務内容1"] :=
  c1_key_is_suffix_after_last_applied
    ["USER_FIELD_01", "USER_FIELD_02"] ["業務内容1"]
    ["USER_FIELD_01", "USER_FIELD_03"]
    ["USER_FIELD_01", "USER_FIELD_02", "USER_FIELD_03", "業務内容1"]
    "USER_FIELD_03" (by decide) (by decide) (by decide) (by decide)

/-! ### Claim C6: totals are invariant under grouping, rows are never
dropped -/

/-- Splitting a mapped sum along a Boolean predicate. -/
lemma sum_map_filter_split {α : Type} (f : α → ℚ) (p : α → Bool)
    (l : List α) :
    ((l.filter p).map f).sum + ((l.filter (fun a => !(p a))).map f).sum
      = (l.map f).sum := by
  induction l with
  | nil => simp
  | cons a l ih =>
      cases h : p a <;> simp [h] <;> rw [← ih] <;> ring

/-- Summing the per-group sums over any duplicate-free key list covering all
rows recovers the total measure sum. -/
lemma sum_groupSums (cols : List String) (keys : List (List Cell)) :
    ∀ rows : List Row, keys.Nodup → (∀ r ∈ rows, keyOf cols r ∈ keys) →
      (keys.map (groupSum rows cols)).sum = (rows.map effortOf).sum := by
  induction keys with
  | nil =>
      intro rows _ hcov
      cases rows with
      | nil => simp
      | cons r rs => exact absurd (hcov r (by simp)) (by simp)
  | cons k ks ih =>
      intro rows hnd hcov
      have hkne : k ∉ ks := (List.nodup_cons.mp hnd).1
      have htail : ∀ k2 ∈ ks, groupSum rows cols k2 =
          groupSum (rows.filter (fun r => !(keyOf cols r == k))) cols k2 := by
        intro k2 hk2
        have hne2 : k2 ≠ k := fun e => hkne (e ▸ hk2)
        unfold groupSum
        simp only [List.filter_filter]
        have hfeq : ∀ r ∈ rows, (keyOf cols r == k2) =
            ((keyOf cols r == k2) && !(keyOf cols r == k)) := by
          intro r _
          by_cases h2 : keyOf cols r = k2
          · simp [h2, hne2]
          · simp [h2]
        rw [List.filter_congr hfeq]
      have hcov2 : ∀ r ∈ rows.filter (fun r => !(keyOf cols r == k)),
          keyOf cols r ∈ ks := by
        intro r hr
        obtain ⟨hrr, hne⟩ := List.mem_filter.mp hr
        have hkn : keyOf cols r ≠ k := by simpa using hne
        rcases List.mem_cons.mp (hcov r hrr) with h | h
        · exact absurd h hkn
        · exact h
      calc ((k :: ks).map (groupSum rows cols)).sum
          = groupSum rows cols k + (ks.map (groupSum rows cols)).sum := by
            simp
        _ = groupSum rows cols k +
            (ks.map (groupSum (rows.filter (fun r => !(keyOf cols r == k)))
              cols)).sum := by
            rw [List.map_congr_left htail]
        _ = groupSum rows cols k +
            ((rows.filter (fun r => !(keyOf cols r == k))).map effortOf).sum := by
            rw [ih _ (List.nodup_cons.mp hnd).2 hcov2]
        _ = (rows.map effortOf).sum :=
            sum_map_filter_split effortOf (fun r => keyOf cols r == k) rows

/-- C6: the sum of the per-group measure sums equals the measure sum over the
whole row set, and every row's key tuple (missing values included, forming
their own blank groups) appears among the produced groups — no row is
dropped. -/
theorem c6_partition_total_and_no_drop (rows : List Row) (cols : List String) :
    ((aggregate rows cols).map Prod.snd).sum = (rows.map effortOf).sum ∧
    ∀ r ∈ rows, keyOf cols r ∈ (aggregate rows cols).map Prod.fst := by
  have hfst : (aggregate rows cols).map Prod.fst =
      (rows.map (keyOf cols)).dedup := by
    have hcmp : (Prod.fst ∘ fun k => (k, groupSum rows cols k)) = id := rfl
    simp only [aggregate, List.map_map, hcmp, List.map_id]
  have hsnd : (aggregate rows cols).map Prod.snd =
      ((rows.map (keyOf cols)).dedup).map (groupSum rows cols) := by
    have hcmp : (Prod.snd ∘ fun k => (k, groupSum rows cols k)) =
        groupSum rows cols := rfl
    simp only [aggregate, List.map_map, hcmp]
  constructor
  · rw [hsnd]
    exact sum_groupSums cols _ rows (List.nodup_dedup _)
      (fun r hr => List.mem_dedup.mpr (List.mem_map_of_mem _ hr))
  · intro r hr
    rw [hfst]
    exact List.mem_dedup.mpr (List.mem_map_of_mem _ hr)

/-- Witness for C6 at a concrete two-row table with one blank-keyed row. -/
theorem c6_witness :
    ((aggregate [[("USER_FIELD_01", Cell.str "X"), (EFFORT_COL, Cell.num 2)],
        [(EFFORT_COL, Cell.num 3)]] ["USER_FIELD_01"]).map Prod.snd).sum =
      (([[("USER_FIELD_01", Cell.str "X"), (EFFORT_COL, Cell.num 2)],
        [(EFFORT_COL, Cell.num 3)]] : List Row).map effortOf).sum :=
  (c6_partition_total_and_no_drop _ _).1

/-! ### Cascade infrastructure for C4 and C10 -/

/-- Membership in an option list is membership among the `fillna`-ed column
values. -/
lemma mem_optionsWithBlank {v : Cell} {rows : List Row} {col : String} :
    v ∈ optionsWithBlank rows col ↔
      v ∈ rows.map (fun r => fillBlank (Row.get r col)) := by
  unfold optionsWithBlank
  rw [(List.perm_insertionSort _ _).mem_iff, List.mem_dedup]

/-- An option list is empty exactly when the table has no rows. -/
lemma optionsWithBlank_eq_nil_iff (rows : List Row) (col : String) :
    optionsWithBlank rows col = [] ↔ rows = [] := by
  constructor
  · intro h
    have hperm := List.perm_insertionSort
      (fun a b => strLe (cellStr a) (cellStr b) = true)
      ((rows.map (fun r => fillBlank (Row.get r col))).dedup)
    rw [show List.insertionSort (fun a b => strLe (cellStr a) (cellStr b) = true)
        ((rows.map (fun r => fillBlank (Row.get r col))).dedup)
      = optionsWithBlank rows col from rfl, h] at hperm
    have hd := hperm.symm.eq_nil
    rw [List.dedup_eq_nil, List.map_eq_nil_iff] at hd
    exact hd
  · intro h
    rw [h]
    rfl

/-- Options of a sub-table stay options of the larger table. -/
lemma mem_optionsWithBlank_of_sublist {r1 r2 : List Row} (h : r1.Sublist r2)
    (col : String) {v : Cell} (hv : v ∈ optionsWithBlank r1 col) :
    v ∈ optionsWithBlank r2 col := by
  rw [mem_optionsWithBlank] at hv ⊢
  exact (h.map _).subset hv

/-- A cascade step never changes the column list. -/
lemma cascadeStep_cols (sels : String → List Cell) (acc : CascadeState)
    (col : String) :
    (cascadeStep sels acc col).table.cols = acc.table.cols := by
  simp only [cascadeStep]
  split
  · split
    · rfl
    · split
      · rfl
      · rfl
  · rfl

/-- A cascade step never adds rows. -/
lemma cascadeStep_rows_shrink (sels : String → List Cell) (acc : CascadeState)
    (col : String) :
    (cascadeStep sels acc col).table.rows.Sublist acc.table.rows := by
  simp only [cascadeStep]
  split
  · split
    · exact List.Sublist.refl _
    · split
      · exact List.Sublist.refl _
      · exact List.filter_sublist _
  · exact List.Sublist.refl _

/-- Comparative cascade step: running the step under a selection assignment
with strictly more constraints keeps the row set a sublist of the less
constrained run. -/
lemma cascadeStep_rows_sublist (sels sels2 : String → List Cell)
    (h : ∀ c, sels c = sels2 c ∨ sels c = [])
    (acc acc2 : CascadeState) (col : String)
    (hcols : acc2.table.cols = acc.table.cols)
    (hrows : acc2.table.rows.Sublist acc.table.rows) :
    (cascadeStep sels2 acc2 col).table.rows.Sublist
      (cascadeStep sels acc col).table.rows := by
  by_cases hc : col ∈ acc.table.cols
  case neg =>
    have hc2 : col ∉ acc2.table.cols := by rw [hcols]; exact hc
    simp only [cascadeStep, if_neg hc, if_neg hc2]
    exact hrows
  case pos =>
    have hc2 : col ∈ acc2.table.cols := by rw [hcols]; exact hc
    simp only [cascadeStep, if_pos hc, if_pos hc2]
    by_cases ho2 : optionsWithBlank acc2.table.rows col = []
    · rw [if_pos ho2]
      have hnil : acc2.table.rows = [] :=
        (optionsWithBlank_eq_nil_iff _ _).mp ho2
      rw [hnil]
      exact List.nil_sublist _
    · rw [if_neg ho2]
      have hne2 : acc2.table.rows ≠ [] :=
        fun e => ho2 ((optionsWithBlank_eq_nil_iff _ _).mpr e)
      have hne : acc.table.rows ≠ [] := by
        intro e
        rw [e] at hrows
        exact hne2 (List.sublist_nil.mp hrows)
      have ho : optionsWithBlank acc.table.rows col ≠ [] :=
        fun e => hne ((optionsWithBlank_eq_nil_iff _ _).mp e)
      rw [if_neg ho]
      rcases h col with hcs | hcs
      · by_cases hs : sels col = []
        · have hs2 : sels2 col = [] := hcs ▸ hs
          rw [if_pos hs, if_pos hs2]
          exact hrows
        · have hs2 : sels2 col ≠ [] := fun e => hs (hcs.symm ▸ e)
          rw [if_neg hs, if_neg hs2, ← hcs]
          exact hrows.filter _
      · rw [if_pos hcs]
        by_cases hs2 : sels2 col = []
        · rw [if_pos hs2]
          exact hrows
        · rw [if_neg hs2]
          exact (List.filter_sublist acc2.table.rows).trans hrows

/-- The cascade fold never changes the column list. -/
lemma cascade_fold_cols (sels : String → List Cell) (cols : List String) :
    ∀ acc : CascadeState,
      (cols.foldl (cascadeStep sels) acc).table.cols = acc.table.cols := by
  induction cols with
  | nil => intro acc; rfl
  | cons c cs ih =>
      intro acc
      rw [List.foldl_cons, ih, cascadeStep_cols]

/-- The cascade fold never adds rows. -/
lemma cascade_fold_rows_shrink (sels : String → List Cell) (cols : List String) :
    ∀ acc : CascadeState,
      (cols.foldl (cascadeStep sels) acc).table.rows.Sublist acc.table.rows := by
  induction cols with
  | nil => intro acc; exact List.Sublist.refl _
  | cons c cs ih =>
      intro acc
      exact (ih _).trans (cascadeStep_rows_shrink sels acc c)

/-- Comparative cascade fold: more constraints keep the rows a sublist. -/
lemma cascade_fold_rows_sublist (sels sels2 : String → List Cell)
    (h : ∀ c, sels c = sels2 c ∨ sels c = []) (cols : List String) :
    ∀ acc acc2 : CascadeState, acc2.table.cols = acc.table.cols →
      acc2.table.rows.Sublist acc.table.rows →
      (cols.foldl (cascadeStep sels2) acc2).table.rows.Sublist
        (cols.foldl (cascadeStep sels) acc).table.rows := by
  induction cols with
  | nil => intro acc acc2 _ h2; exact h2
  | cons c cs ih =>
      intro acc acc2 h1 h2
      exact ih _ _
        (by rw [cascadeStep_cols, cascadeStep_cols, h1])
        (cascadeStep_rows_sublist sels sels2 h acc acc2 c h1 h2)

/-- The cascaded table keeps the source's column list. -/
lemma cascade_cols (t : Table) (sels : String → List Cell) :
    (cascade t sels).table.cols = t.cols :=
  cascade_fold_cols sels (availableBaseColumns t) ⟨t, [], []⟩

/-- The cascaded rows are a sublist of the source rows. -/
lemma cascade_rows_sublist (t : Table) (sels : String → List Cell) :
    (cascade t sels).table.rows.Sublist t.rows :=
  cascade_fold_rows_shrink sels (availableBaseColumns t) ⟨t, [], []⟩

/-- Comparative unit filter: more constraints keep the rows a sublist. -/
lemma applyUnitFilter_rows_sublist (t : Table) (f f2 : Table)
    (unitSel unitSel2 : List Cell)
    (hu : unitSel = unitSel2 ∨ unitSel = [])
    (hcols : f2.cols = f.cols) (hrows : f2.rows.Sublist f.rows) :
    (applyUnitFilter t f2 unitSel2).rows.Sublist
      (applyUnitFilter t f unitSel).rows := by
  unfold applyUnitFilter
  by_cases hg2 : t.cols.contains UNIT_COL ∧ unitSel2 ≠ [] ∧
      f2.cols.contains UNIT_COL
  · rw [if_pos hg2]
    rcases hu with hcs | hcs
    · have hg : t.cols.contains UNIT_COL ∧ unitSel ≠ [] ∧
          f.cols.contains UNIT_COL :=
        ⟨hg2.1, hcs ▸ hg2.2.1, hcols ▸ hg2.2.2⟩
      rw [if_pos hg, hcs]
      exact hrows.filter _
    · have hg : ¬ (t.cols.contains UNIT_COL ∧ unitSel ≠ [] ∧
          f.cols.contains UNIT_COL) := fun hg => hg.2.1 hcs
      rw [if_neg hg]
      exact (List.filter_sublist f2.rows).trans hrows
  · rw [if_neg hg2]
    by_cases hg : t.cols.contains UNIT_COL ∧ unitSel ≠ [] ∧
        f.cols.contains UNIT_COL
    · rcases hu with hcs | hcs
      · exact absurd ⟨hg.1, hcs ▸ hg.2.1, hcols.symm ▸ hg.2.2⟩ hg2
      · exact absurd hcs hg.2.1
    · rw [if_neg hg]
      exact hrows

/-- C4: enlarging the set of non-empty filter constraints (any category
selection added where there was none, and/or a unit selection added) never
increases the number of filtered rows. -/
theorem c4_more_filters_never_more_rows (t : Table)
    (sels sels2 : String → List Cell) (unitSel unitSel2 : List Cell)
    (h : ∀ c, sels c = sels2 c ∨ sels c = [])
    (hu : unitSel = unitSel2 ∨ unitSel = []) :
    (filteredTable t sels2 unitSel2).rows.length ≤
      (filteredTable t sels unitSel).rows.length :=
  List.Sublist.length_le
    (applyUnitFilter_rows_sublist t (cascade t sels).table
      (cascade t sels2).table unitSel unitSel2 hu
      (by rw [cascade_cols, cascade_cols])
      (cascade_fold_rows_sublist sels sels2 h (availableBaseColumns t)
        ⟨t, [], []⟩ ⟨t, [], []⟩ rfl (List.Sublist.refl _)))

/-- Witness for C4: adding a category selection on `USER_FIELD_01` to an
unconstrained pass does not increase the filtered row count. -/
theorem c4_witness :
    (filteredTable
        ⟨["USER_FIELD_01", EFFORT_COL],
          [[("USER_FIELD_01", Cell.str "X"), (EFFORT_COL, Cell.num 1)],
           [("USER_FIELD_01", Cell.str "Y"), (EFFORT_COL, Cell.num 2)]]⟩
        (fun c => if c = "USER_FIELD_01" then [Cell.str "X"] else [])
        []).rows.length ≤
      (filteredTable
        ⟨["USER_FIELD_01", EFFORT_COL],
          [[("USER_FIELD_01", Cell.str "X"), (EFFORT_COL, Cell.num 1)],
           [("USER_FIELD_01", Cell.str "Y"), (EFFORT_COL, Cell.num 2)]]⟩
        (fun _ => []) []).rows.length :=
  c4_more_filters_never_more_rows _ (fun _ => [])
    (fun c => if c = "USER_FIELD_01" then [Cell.str "X"] else []) [] []
    (fun _ => Or.inr rfl) (Or.inr rfl)

/-! ### Claim C10: option-list provenance -/

/-- One cascade step preserves the invariant that every option shown so far
occurs among the source table's options for its column. -/
lemma cascadeStep_options_inv (t : Table) (sels : String → List Cell)
    (acc : CascadeState) (col : String)
    (h1 : acc.table.rows.Sublist t.rows)
    (h2 : ∀ p ∈ acc.shownOptions, ∀ v ∈ p.2,
      v ∈ optionsWithBlank t.rows p.1) :
    ∀ p ∈ (cascadeStep sels acc col).shownOptions, ∀ v ∈ p.2,
      v ∈ optionsWithBlank t.rows p.1 := by
  have hnew : ∀ p ∈ acc.shownOptions ++ [(col, optionsWithBlank acc.table.rows col)],
      ∀ v ∈ p.2, v ∈ optionsWithBlank t.rows p.1 := by
    intro p hp
    rcases List.mem_append.mp hp with hp | hp
    · exact h2 p hp
    · rw [List.mem_singleton.mp hp]
      intro v hv
      exact mem_optionsWithBlank_of_sublist h1 col hv
  simp only [cascadeStep]
  split
  · split
    · exact h2
    · split
      · exact hnew
      · exact hnew
  · exact h2

/-- Cascade fold version of the option-provenance invariant. -/
lemma cascade_fold_options_inv (t : Table) (sels : String → List Cell)
    (cols : List String) :
    ∀ acc : CascadeState, acc.table.rows.Sublist t.rows →
      (∀ p ∈ acc.shownOptions, ∀ v ∈ p.2,
        v ∈ optionsWithBlank t.rows p.1) →
      ∀ p ∈ (cols.foldl (cascadeStep sels) acc).shownOptions, ∀ v ∈ p.2,
        v ∈ optionsWithBlank t.rows p.1 := by
  induction cols with
  | nil => intro acc _ h2; exact h2
  | cons c cs ih =>
      intro acc h1 h2
      exact ih _ ((cascadeStep_rows_shrink sels acc c).trans h1)
        (cascadeStep_options_inv t sels acc c h1 h2)

/-- Every option ever offered by the category cascade is an option of the
source table for that column. -/
lemma cascade_options_inv (t : Table) (sels : String → List Cell) :
    ∀ p ∈ (cascade t sels).shownOptions, ∀ v ∈ p.2,
      v ∈ optionsWithBlank t.rows p.1 :=
  cascade_fold_options_inv t sels (availableBaseColumns t) ⟨t, [], []⟩
    (List.Sublist.refl _) (by intro p hp; exact absurd hp (List.not_mem_nil p))

/-- C10: unit-filter options are enumerated from the original source table
(so category filtering never removes them), while category options are
enumerated from the cascaded table and only ever narrow relative to the
source; concretely, filtering `USER_FIELD_01` to `X` removes `q` from the
downstream `USER_FIELD_02` options and removes unit `m` from the filtered
rows, yet `m` is still offered by the unit filter. -/
theorem c10_option_provenance (t : Table) (sels : String → List Cell) :
    (∀ v, v ∈ sidebarUnitOptions t ↔
      (t.cols.contains UNIT_COL = true ∧
        v ∈ t.rows.map (fun r => fillBlank (Row.get r UNIT_COL)))) ∧
    (∀ p ∈ (cascade t sels).shownOptions, ∀ v ∈ p.2,
      v ∈ optionsWithBlank t.rows p.1) ∧
    (Cell.str "m" ∈ sidebarUnitOptions c10table ∧
      Cell.str "m" ∉ (cascade c10table c10sels).table.rows.map
        (fun r => fillBlank (Row.get r UNIT_COL)) ∧
      Cell.str "q" ∈ optionsWithBlank c10table.rows "USER_FIELD_02" ∧
      Cell.str "q" ∉ optionsWithBlank (cascade c10table c10sels).table.rows
        "USER_FIELD_02") := by
  refine ⟨?_, cascade_options_inv t sels, ?_⟩
  · intro v
    by_cases hcol : t.cols.contains UNIT_COL = true
    · have hmem : UNIT_COL ∈ t.cols := by simpa using hcol
      rw [sidebarUnitOptions, if_pos hcol, mem_optionsWithBlank]
      simp [hcol, hmem]
    · have hmem : UNIT_COL ∉ t.cols := by simpa using hcol
      rw [sidebarUnitOptions, if_neg hcol]
      simp [hcol, hmem]
  · refine ⟨?_, by decide, ?_, by decide⟩
    · rw [sidebarUnitOptions, if_pos (by decide), mem_optionsWithBlank]
      decide
    · rw [mem_optionsWithBlank]
      decide

/-- Witness for C10 at the concrete demonstration table. -/
theorem c10_witness :
    Cell.str "m" ∈ sidebarUnitOptions c10table ∧
    Cell.str "q" ∉ optionsWithBlank (cascade c10table c10sels).table.rows
      "USER_FIELD_02" :=
  ⟨(c10_option_provenance c10table c10sels).2.2.1,
    (c10_option_provenance c10table c10sels).2.2.2.2.2⟩

/-! ### Claim C8: sort comparator and (non-)stability -/

/-- The source comparator on an object-dtype column reduces to string
comparison of the rendered values. -/
lemma rowSortLe_obj_true (asc : Bool) (col : String) (a b : Row) :
    rowSortLe true asc col a b =
      (if asc then strLe (cellStr (Row.get a col)) (cellStr (Row.get b col))
       else strLe (cellStr (Row.get b col)) (cellStr (Row.get a col))) := by
  cases asc <;> rfl

/-- The source comparator on a numeric column reduces to numeric
comparison. -/
lemma rowSortLe_obj_false (asc : Bool) (col : String) (a b : Row)
    (p q : ℚ) (hp : Row.get a col = Cell.num p)
    (hq : Row.get b col = Cell.num q) :
    rowSortLe false asc col a b =
      (if asc then decide (p ≤ q) else decide (q ≤ p)) := by
  cases asc <;> simp [rowSortLe, sortKeyCell, cellLe, hp, hq]

/-- C8 (amended): every output the sort may produce is a permutation of the
aggregated rows ordered under the claimed comparison — string representation
on object-dtype sort columns (never raising), numeric comparison on numeric
columns; tie order among equal keys is not guaranteed (the source uses the
pandas default non-stable `quicksort`). -/
theorem c8_sort_is_ordered_permutation (rows out : List Row) (col : String)
    (asc : Bool)
    (hout : IsSortOutput rows col asc out)
    (hnum : isObjectDtype (rows.map (fun r => Row.get r col)) = false →
      ∀ r ∈ rows, ∃ q, Row.get r col = Cell.num q) :
    out.Perm rows ∧
      out.Pairwise
        (claimSortLe (isObjectDtype (rows.map (fun r => Row.get r col)))
          asc col) := by
  obtain ⟨hperm, hpw⟩ := hout
  refine ⟨hperm, List.Pairwise.imp_of_mem ?_ hpw⟩
  intro a b ha hb hr
  have hamem : a ∈ rows := hperm.subset ha
  have hbmem : b ∈ rows := hperm.subset hb
  cases hobj : isObjectDtype (rows.map (fun r => Row.get r col)) with
  | true =>
      rw [hobj, rowSortLe_obj_true] at hr
      unfold claimSortLe
      rw [if_pos rfl]
      cases asc with
      | true => simpa using hr
      | false => simpa using hr
  | false =>
      rw [hobj] at hr
      obtain ⟨p, hp⟩ := hnum hobj a hamem
      obtain ⟨q, hq⟩ := hnum hobj b hbmem
      rw [rowSortLe_obj_false asc col a b p q hp hq] at hr
      unfold claimSortLe
      rw [if_neg (by simp)]
      refine ⟨p, q, hp, hq, ?_⟩
      cases asc with
      | true => simpa using hr
      | false => simpa using hr

/-- Counterexample for C8 as stated: on two rows tied on the sort key, the
reversed order is a legitimate sort output (a permutation ordered under the
comparison) yet differs from the stable order that keeps ties in original
position — the sort contract does not force stability. -/
theorem c8_counterexample_unstable_tie_order :
    IsSortOutput [c8rowA, c8rowB] "k" true [c8rowB, c8rowA] ∧
    [c8rowB, c8rowA] ≠ stableSortRows [c8rowA, c8rowB] "k" true := by
  refine ⟨⟨List.Perm.swap c8rowA c8rowB [], ?_⟩, by decide⟩
  refine List.Pairwise.cons ?_ (List.Pairwise.cons
    (fun y hy => absurd hy (List.not_mem_nil y)) List.Pairwise.nil)
  intro y hy
  rw [List.mem_singleton.mp hy]
  decide

/-- Witness for C8 at a concrete numeric-keyed input kept in order. -/
theorem c8_witness :
    ([c8rowA, c8rowB] : List Row).Perm [c8rowA, c8rowB] ∧
    List.Pairwise
      (claimSortLe (isObjectDtype ([c8rowA, c8rowB].map
        (fun r => Row.get r "k"))) true "k") [c8rowA, c8rowB] :=
  c8_sort_is_ordered_permutation [c8rowA, c8rowB] [c8rowA, c8rowB] "k" true
    ⟨List.Perm.refl _, by
      refine List.Pairwise.cons ?_ (List.Pairwise.cons
        (fun y hy => absurd hy (List.not_mem_nil y)) List.Pairwise.nil)
      intro y hy
      rw [List.mem_singleton.mp hy]
      decide⟩
    (fun _ r hr => by
      rcases List.mem_cons.mp hr with h1 | h1
      · exact ⟨1, by subst h1; decide⟩
      · rcases List.mem_cons.mp h1 with h2 | h2
        · exact ⟨1, by subst h2; decide⟩
        · exact absurd h2 (List.not_mem_nil r))
